import Mathlib

/-! Shallow embedding of the Boyer-Moore substring search engine
(`src/task1/boyermoore.py`, class `BoyerMoore`).

Subject sequences and patterns are `List Char`.  Quantities the Python code
lets go negative (the `-1` table sentinel, the shift amounts, the loop bound
`len(T) - len(P)`) are modelled with `Int`; cursor positions are `Nat`.
The scan loop is given explicit fuel; termination (the fuel never running
out for fuel `len T + 1`) is proved separately. -/

namespace BoyerMooreModel

/-- Python slice `L[a : a + n]`, clamping at the end of the list. -/
def slice (L : List Char) (a n : Nat) : List Char := (L.drop a).take n

/-- Character lookup `L[n]`, total with a default; every use during the scan
is in range. -/
def nthc (L : List Char) (n : Nat) : Char := L.getD n ' '

/-- One cell of the BCR lookup table built by `_preprocessing`: the fold
replays the imperative writes `arr[c_map[c]][j] = i`, performed for `i`
ascending with `pat[i] == c` and `j` in `range(i+1, len(pat))`; the last
write wins.  `-1` is the sentinel the table is `np.full`ed with. -/
def bcCell (P : List Char) (c : Char) (j : Nat) : Int :=
  (List.range P.length).foldl
    (fun acc i => if nthc P i = c ∧ i < j then (i : Int) else acc) (-1)

/-- Bad character rule `BCR(t, p, P_idx)`: `x = T[t+p]`,
`shift = prep[c_map[x]][p]`; return `p + 1` on the sentinel, else
`p - shift`.  The dense `c_map` row addressing is collapsed: the row of `x`
holds exactly the values `bcCell P x j`. -/
def BCR (T P : List Char) (t p : Nat) : Int :=
  if bcCell P (nthc T (t + p)) p = -1 then (p : Int) + 1
  else (p : Int) - bcCell P (nthc T (t + p)) p

/-- Good suffix rule `GSR(t, p, P_idx)`: `suffix = T[t:t+p+1]`; collect (in
ascending order, as the Python loop appends) every `i` in
`range(len(P) - suf_len)` with `P[i:i+suf_len] == suffix` and `i < p`;
return `1` if none, else `p - positions[-1]`. -/
def GSR (T P : List Char) (t p : Nat) : Int :=
  let suf := slice T t (p + 1)
  let positions := (List.range (P.length - suf.length)).filter
    (fun i => decide (slice P i suf.length = suf ∧ i < p))
  match positions.getLast? with
  | none => 1
  | some i => (p : Int) - (i : Int)

/-- Right-to-left inner comparison loop of `boyer_moore`, starting at
pattern index `p` and walking down: `none` when every position down to `0`
matches (Python's `p` reaching `-1`), `some p` at the first mismatch. -/
def cmpFrom (T P : List Char) (t : Nat) : Nat → Option Nat
  | 0 => if nthc T t = nthc P 0 then none else some 0
  | q + 1 =>
    if nthc T (t + (q + 1)) = nthc P (q + 1) then cmpFrom T P t q
    else some (q + 1)

/-- The inner `while match and p >= 0` loop started at `p = len(P) - 1`. -/
def cmpLoop (T P : List Char) (t : Nat) : Option Nat :=
  match P.length with
  | 0 => none
  | q + 1 => cmpFrom T P t q

/-- The per-pattern `while t <= len(T) - len(P)` scan loop of `boyer_moore`,
with explicit fuel (`none` = fuel exhausted, which never happens for fuel
`len T + 1`).  `P` is the pattern being scanned; `Q` is the pattern text
recovered through `pat_map[P]`, whose table BCR consults and whose text GSR
re-reads (`Q = P` whenever the pattern list has no aliasing surprises). -/
def scanLoopF (T P Q : List Char) (fuel t bcr mc : Nat) (pos : List Nat) :
    Option (Nat × Nat × List Nat) :=
  if (t : Int) ≤ (T.length : Int) - (P.length : Int) then
      match fuel with
      | 0 => none
      | f + 1 =>
        match cmpLoop T P t with
        | none =>
          scanLoopF T P Q f (t + 1) bcr (mc + 1)
            (if mc < 10 then pos ++ [t] else pos)
        | some p =>
          if 2 * p < P.length then
            scanLoopF T P Q f (t + (BCR T Q t p).toNat) (bcr + 1) mc pos
          else
            scanLoopF T P Q f (t + (max (BCR T Q t p) (GSR T Q t p)).toNat)
              (if GSR T Q t p ≤ BCR T Q t p then bcr + 1 else bcr) mc pos
    else some (bcr, mc, pos)

/-- One pattern's scan, from `t = 0`, with enough fuel. -/
def scanPattern (T P Q : List Char) : Nat × Nat × List Nat :=
  (scanLoopF T P Q (T.length + 1) 0 0 0 []).getD (0, 0, [])

/-- Lookup into `_patterns_map`: the dict comprehension
`{ p: idx for idx, p in enumerate(patterns) }` maps a pattern text to the
last index holding it (later insertions overwrite earlier ones). -/
def patMap (pats : List (List Char)) (P : List Char) : Option Nat :=
  (List.range pats.length).foldl
    (fun acc i => if pats.getD i [] = P then some i else acc) none

/-- The pattern text reached through `self.patterns[self.pat_map[P]]`. -/
def lookupPat (pats : List (List Char)) (P : List Char) : List Char :=
  match patMap pats P with
  | none => []
  | some k => pats.getD k []

/-- Engine entry point `boyer_moore`: one report
`(bcr_win_count, match_count, positions)` per pattern, in input order; the
shift rules go through the `pat_map` lookup. -/
def boyerMoore (T : List Char) (pats : List (List Char)) :
    List (Nat × Nat × List Nat) :=
  pats.map (fun P => scanPattern T P (lookupPat pats P))

/-- Brute-force reference: all offsets `i` with `T[i : i+len(P)] == P`, in
increasing order. -/
def bruteMatches (T P : List Char) : List Nat :=
  (List.range (T.length + 1)).filter (fun i => decide (slice T i P.length = P))

/-- Spec-side reference written from the specification text, to be compared
with `bcCell`: the greatest index `i < j` with `pattern[i] == c`, else the
sentinel `-1`. -/
def greatestBelow (P : List Char) (c : Char) (j : Nat) : Int :=
  match ((List.range j).filter (fun i => decide (nthc P i = c))).getLast? with
  | none => -1
  | some i => (i : Int)

/-- Spec-side reference written from the specification text, to be compared
with `GSR`: search every offset `i < p` for `P[i:i+len(suffix)] == suffix`,
return `p - i_last` for the largest such `i`, else `1`. -/
def specGSR (T P : List Char) (t p : Nat) : Int :=
  let suf := slice T t (p + 1)
  let positions := (List.range P.length).filter
    (fun i => decide (slice P i suf.length = suf ∧ i < p))
  match positions.getLast? with
  | none => 1
  | some i => (p : Int) - (i : Int)

end BoyerMooreModel


namespace BoyerMooreModel

/-- Last-write-wins fold over `range n` starting from the `-1` sentinel:
the result is the sentinel (and no index qualifies) or the greatest
qualifying index. -/
lemma lastwriteInt_spec (Q : Nat → Prop) [DecidablePred Q] (n : Nat) :
    (((List.range n).foldl (fun acc i => if Q i then (i : Int) else acc) (-1)) = -1 ∧
       ∀ i, i < n → ¬ Q i) ∨
    (∃ i : Nat,
       ((List.range n).foldl (fun acc i => if Q i then (i : Int) else acc) (-1)) = (i : Int) ∧
       i < n ∧ Q i ∧ ∀ k, i < k → k < n → ¬ Q k) := by
  induction n with
  | zero => exact Or.inl ⟨rfl, fun i hi => absurd hi (by omega)⟩
  | succ n ih =>
    rw [List.range_succ, List.foldl_append]
    by_cases hq : Q n
    · exact Or.inr ⟨n, by simp [hq], by omega, hq, fun k hk1 hk2 => absurd hk2 (by omega)⟩
    · have hstep :
          List.foldl (fun acc i => if Q i then (i : Int) else acc)
            (List.foldl (fun acc i => if Q i then (i : Int) else acc) (-1) (List.range n)) [n] =
          List.foldl (fun acc i => if Q i then (i : Int) else acc) (-1) (List.range n) := by
        simp [hq]
      rw [hstep]
      rcases ih with ⟨h1, h2⟩ | ⟨i, h1, h2, h3, h4⟩
      · refine Or.inl ⟨h1, fun i hi => ?_⟩
        rcases Nat.lt_succ_iff_lt_or_eq.mp hi with h | h
        · exact h2 i h
        · exact h ▸ hq
      · refine Or.inr ⟨i, h1, by omega, h3, fun k hk1 hk2 => ?_⟩
        rcases Nat.lt_succ_iff_lt_or_eq.mp hk2 with h | h
        · exact h4 k hk1 h
        · exact h ▸ hq

/-- Same shape for the `None`-sentinel fold used by `_patterns_map`. -/
lemma lastwriteOpt_spec (Q : Nat → Prop) [DecidablePred Q] (n : Nat) :
    (((List.range n).foldl (fun acc i => if Q i then some i else acc) (none : Option Nat)) = none ∧
       ∀ i, i < n → ¬ Q i) ∨
    (∃ i : Nat,
       ((List.range n).foldl (fun acc i => if Q i then some i else acc) (none : Option Nat)) = some i ∧
       i < n ∧ Q i ∧ ∀ k, i < k → k < n → ¬ Q k) := by
  induction n with
  | zero => exact Or.inl ⟨rfl, fun i hi => absurd hi (by omega)⟩
  | succ n ih =>
    rw [List.range_succ, List.foldl_append]
    by_cases hq : Q n
    · exact Or.inr ⟨n, by simp [hq], by omega, hq, fun k hk1 hk2 => absurd hk2 (by omega)⟩
    · have hstep :
          List.foldl (fun acc i => if Q i then some i else acc)
            (List.foldl (fun acc i => if Q i then some i else acc) (none : Option Nat)
              (List.range n)) [n] =
          List.foldl (fun acc i => if Q i then some i else acc) (none : Option Nat)
            (List.range n) := by
        simp [hq]
      rw [hstep]
      rcases ih with ⟨h1, h2⟩ | ⟨i, h1, h2, h3, h4⟩
      · refine Or.inl ⟨h1, fun i hi => ?_⟩
        rcases Nat.lt_succ_iff_lt_or_eq.mp hi with h | h
        · exact h2 i h
        · exact h ▸ hq
      · refine Or.inr ⟨i, h1, by omega, h3, fun k hk1 hk2 => ?_⟩
        rcases Nat.lt_succ_iff_lt_or_eq.mp hk2 with h | h
        · exact h4 k hk1 h
        · exact h ▸ hq

/-- Greatest-element view of `getLast?` on an ascending filtered range:
`none` (and no index qualifies) or the greatest qualifying index. -/
lemma filterRange_getLast_spec (Q : Nat → Prop) [DecidablePred Q] (n : Nat) :
    (((List.range n).filter (fun i => decide (Q i))).getLast? = none ∧
       ∀ i, i < n → ¬ Q i) ∨
    (∃ i : Nat, ((List.range n).filter (fun i => decide (Q i))).getLast? = some i ∧
       i < n ∧ Q i ∧ ∀ k, i < k → k < n → ¬ Q k) := by
  induction n with
  | zero => exact Or.inl ⟨rfl, fun i hi => absurd hi (by omega)⟩
  | succ n ih =>
    rw [List.range_succ, List.filter_append]
    by_cases hq : Q n
    · have hone : (List.filter (fun i => decide (Q i)) [n]) = [n] := by simp [hq]
      rw [hone]
      exact Or.inr ⟨n, List.getLast?_concat _, by omega, hq,
        fun k hk1 hk2 => absurd hk2 (by omega)⟩
    · have hnone : (List.filter (fun i => decide (Q i)) [n]) = [] := by simp [hq]
      rw [hnone, List.append_nil]
      rcases ih with ⟨h1, h2⟩ | ⟨i, h1, h2, h3, h4⟩
      · refine Or.inl ⟨h1, fun i hi => ?_⟩
        rcases Nat.lt_succ_iff_lt_or_eq.mp hi with h | h
        · exact h2 i h
        · exact h ▸ hq
      · refine Or.inr ⟨i, h1, by omega, h3, fun k hk1 hk2 => ?_⟩
        rcases Nat.lt_succ_iff_lt_or_eq.mp hk2 with h | h
        · exact h4 k hk1 h
        · exact h ▸ hq

end BoyerMooreModel


namespace BoyerMooreModel

/-- Characterization of a BCR table cell: the sentinel with no qualifying
index, or the greatest index `i < j` (within the pattern) carrying `c`. -/
lemma bcCell_spec (P : List Char) (c : Char) (j : Nat) :
    (bcCell P c j = -1 ∧ ∀ i, i < P.length → i < j → nthc P i ≠ c) ∨
    (∃ i : Nat, bcCell P c j = (i : Int) ∧ i < P.length ∧ i < j ∧ nthc P i = c ∧
       ∀ k, i < k → k < P.length → k < j → nthc P k ≠ c) := by
  rcases lastwriteInt_spec (fun i => nthc P i = c ∧ i < j) P.length with
    ⟨h1, h2⟩ | ⟨i, h1, h2, h3, h4⟩
  · refine Or.inl ⟨h1, fun i hi hij hc => h2 i hi ⟨hc, hij⟩⟩
  · exact Or.inr ⟨i, h1, h2, h3.2, h3.1,
      fun k hk1 hk2 hk3 hc => h4 k hk1 hk2 ⟨hc, hk3⟩⟩

/-- BCR always suggests a strictly positive shift. -/
lemma BCR_pos (T P : List Char) (t p : Nat) : 1 ≤ BCR T P t p := by
  unfold BCR
  rcases bcCell_spec P (nthc T (t + p)) p with ⟨h1, _⟩ | ⟨i, h1, _, hip, _, _⟩
  · rw [h1, if_pos rfl]; omega
  · rw [h1, if_neg (by omega)]; omega

/-- GSR always suggests a strictly positive shift. -/
lemma GSR_pos (T P : List Char) (t p : Nat) : 1 ≤ GSR T P t p := by
  rcases filterRange_getLast_spec
      (fun i => slice P i (slice T t (p + 1)).length = slice T t (p + 1) ∧ i < p)
      (P.length - (slice T t (p + 1)).length) with ⟨h1, _⟩ | ⟨i, h1, _, h3, _⟩
  · have h1x : ((List.range (P.length - (slice T t (p + 1)).length)).filter
        (fun i => decide (slice P i (slice T t (p + 1)).length = slice T t (p + 1) ∧ i < p))).getLast?
        = none := h1
    simp only [GSR]
    rw [h1x]
  · have h1x : ((List.range (P.length - (slice T t (p + 1)).length)).filter
        (fun i => decide (slice P i (slice T t (p + 1)).length = slice T t (p + 1) ∧ i < p))).getLast?
        = some i := h1
    simp only [GSR]
    rw [h1x]
    show (1 : Int) ≤ (p : Int) - (i : Int)
    have := h3.2
    omega

/-- When `P` occurs in the pattern list, the `pat_map` lookup recovers a
pattern with the same text. -/
lemma lookupPat_eq (pats : List (List Char)) (P : List Char) (hP : P ∈ pats) :
    lookupPat pats P = P := by
  rcases lastwriteOpt_spec (fun i => pats.getD i [] = P) pats.length with
    ⟨h1, h2⟩ | ⟨k, h1, h2, h3, _⟩
  · exfalso
    obtain ⟨⟨n, hn⟩, hget⟩ := List.mem_iff_get.mp hP
    refine h2 n hn ?_
    rw [List.getD_eq_get?, List.get?_eq_get hn]
    simpa using hget
  · have h1x : patMap pats P = some k := h1
    unfold lookupPat
    rw [h1x]
    exact h3

end BoyerMooreModel

namespace BoyerMooreModel

/-- Loop exit: once the cursor passes `len(T) - len(P)` the loop returns
its accumulated report, for any remaining fuel. -/
lemma scanLoopF_stop (T P Q : List Char) (fuel t bcr mc : Nat) (pos : List Nat)
    (h : ¬ ((t : Int) ≤ (T.length : Int) - (P.length : Int))) :
    scanLoopF T P Q fuel t bcr mc pos = some (bcr, mc, pos) := by
  rw [scanLoopF.eq_def, if_neg h]

/-- Loop body on a full match: push the offset (while fewer than ten are
recorded), bump the match counter, advance the cursor by one. -/
lemma scanLoopF_match (T P Q : List Char) (fuel t bcr mc : Nat) (pos : List Nat)
    (hb : (t : Int) ≤ (T.length : Int) - (P.length : Int))
    (hm : cmpLoop T P t = none) :
    scanLoopF T P Q (fuel + 1) t bcr mc pos =
      scanLoopF T P Q fuel (t + 1) bcr (mc + 1) (if mc < 10 then pos ++ [t] else pos) := by
  rw [scanLoopF.eq_def, if_pos hb]
  simp only [hm]

/-- Loop body on a mismatch at pattern position `p`: branch on
`p < len(P) / 2` and advance by the selected shift. -/
lemma scanLoopF_mismatch (T P Q : List Char) (fuel t bcr mc : Nat) (pos : List Nat)
    (p : Nat)
    (hb : (t : Int) ≤ (T.length : Int) - (P.length : Int))
    (hm : cmpLoop T P t = some p) :
    scanLoopF T P Q (fuel + 1) t bcr mc pos =
      if 2 * p < P.length then
        scanLoopF T P Q fuel (t + (BCR T Q t p).toNat) (bcr + 1) mc pos
      else
        scanLoopF T P Q fuel (t + (max (BCR T Q t p) (GSR T Q t p)).toNat)
          (if GSR T Q t p ≤ BCR T Q t p then bcr + 1 else bcr) mc pos := by
  rw [scanLoopF.eq_def, if_pos hb]
  simp only [hm]

end BoyerMooreModel

namespace BoyerMooreModel

/-- With fuel exceeding the number of remaining cursor values, the scan
loop never exhausts its fuel: every shift moves `t` by at least one. -/
lemma scanLoopF_total (T P Q : List Char) :
    ∀ (fuel t bcr mc : Nat) (pos : List Nat),
      (T.length : Int) - (P.length : Int) - (t : Int) < (fuel : Int) →
      (scanLoopF T P Q fuel t bcr mc pos).isSome = true := by
  intro fuel
  induction fuel with
  | zero =>
    intro t bcr mc pos h
    rw [scanLoopF_stop T P Q 0 t bcr mc pos (by omega)]
    rfl
  | succ f ih =>
    intro t bcr mc pos h
    by_cases hb : (t : Int) ≤ (T.length : Int) - (P.length : Int)
    · rcases hm : cmpLoop T P t with _ | p
      · rw [scanLoopF_match T P Q f t bcr mc pos hb hm]
        exact ih (t + 1) bcr (mc + 1) _ (by push_cast; omega)
      · rw [scanLoopF_mismatch T P Q f t bcr mc pos p hb hm]
        by_cases hp : 2 * p < P.length
        · rw [if_pos hp]
          have h1 := BCR_pos T Q t p
          exact ih _ (bcr + 1) mc pos (by push_cast; omega)
        · rw [if_neg hp]
          have h1 := BCR_pos T Q t p
          have h2 : 1 ≤ max (BCR T Q t p) (GSR T Q t p) :=
            le_trans h1 (le_max_left _ _)
          exact ih _ _ mc pos (by push_cast; omega)
    · rw [scanLoopF_stop T P Q (f + 1) t bcr mc pos hb]
      rfl

end BoyerMooreModel

namespace BoyerMooreModel

/-- Claim C1 (code bug): the scan's match count should equal the
brute-force occurrence count for every subject and non-empty pattern, but
for subject `ABBABBABA` and pattern `BABBABA` the engine reports zero
matches while the pattern genuinely occurs at offset 2 (the good-suffix
shift overshoots the occurrence). -/
theorem thm_c1_engine_undercounts :
    boyerMoore "ABBABBABA".toList ["BABBABA".toList] = [(0, 0, [])] ∧
    bruteMatches "ABBABBABA".toList "BABBABA".toList = [2] ∧
    slice "ABBABBABA".toList 2 ("BABBABA".toList).length = "BABBABA".toList := by
  refine ⟨by decide, by decide, by decide⟩

/-- Claim C2, counterexample: at the genuine mismatch invocation `t = 0`,
`p = 3` of subject `ABCDD` against pattern `AABCD` (a GSR-branch mismatch,
as `len(P) <= 2p`), offset `i = 1 < p` satisfies
`P[i : i+len(suffix)] == suffix`, so the claim demands `p - 1 = 2`; the
code returns `1` because its search range `range(len(P) - suf_len)`
excludes `i = 1`. -/
theorem thm_c2_counterexample :
    cmpLoop "ABCDD".toList "AABCD".toList 0 = some 3 ∧
    ("AABCD".toList).length ≤ 2 * 3 ∧
    GSR "ABCDD".toList "AABCD".toList 0 3 = 1 ∧
    specGSR "ABCDD".toList "AABCD".toList 0 3 = 2 ∧
    slice "AABCD".toList 1 (slice "ABCDD".toList 0 (3 + 1)).length =
      slice "ABCDD".toList 0 (3 + 1) ∧ (1 : Nat) < 3 := by
  refine ⟨by decide, by decide, by decide, by decide, by decide, by decide⟩

/-- Claim C2, amended: GSR returns `p - i_last` where `i_last` is the
largest offset `i < p` with `i + len(suffix) < len(P)` (the code searches
only `range(len(P) - suf_len)`, so an occurrence ending at the pattern's
last position is never considered) such that
`P[i : i+len(suffix)] == suffix`, and returns `1` when no such offset
exists. -/
theorem thm_c2_gsr_amended (T P : List Char) (t p : Nat) :
    (∃ i : Nat,
        i + (slice T t (p + 1)).length < P.length ∧ i < p ∧
        slice P i (slice T t (p + 1)).length = slice T t (p + 1) ∧
        (∀ k : Nat, i < k → k + (slice T t (p + 1)).length < P.length → k < p →
          slice P k (slice T t (p + 1)).length ≠ slice T t (p + 1)) ∧
        GSR T P t p = (p : Int) - (i : Int)) ∨
    ((∀ i : Nat, i + (slice T t (p + 1)).length < P.length → i < p →
        slice P i (slice T t (p + 1)).length ≠ slice T t (p + 1)) ∧
      GSR T P t p = 1) := by
  rcases filterRange_getLast_spec
      (fun i => slice P i (slice T t (p + 1)).length = slice T t (p + 1) ∧ i < p)
      (P.length - (slice T t (p + 1)).length) with ⟨h1, h2⟩ | ⟨i, h1, h2, h3, h4⟩
  · right
    have h1x : ((List.range (P.length - (slice T t (p + 1)).length)).filter
        (fun i => decide (slice P i (slice T t (p + 1)).length = slice T t (p + 1) ∧
          i < p))).getLast? = none := h1
    refine ⟨fun i hlen hip hsl => h2 i (by omega) ⟨hsl, hip⟩, ?_⟩
    simp only [GSR]
    rw [h1x]
  · left
    have h1x : ((List.range (P.length - (slice T t (p + 1)).length)).filter
        (fun i => decide (slice P i (slice T t (p + 1)).length = slice T t (p + 1) ∧
          i < p))).getLast? = some i := h1
    refine ⟨i, by omega, h3.2, h3.1,
      fun k hk1 hk2 hk3 hsl => h4 k hk1 (by omega) ⟨hsl, hk3⟩, ?_⟩
    simp only [GSR]
    rw [h1x]

/-- Witness for the amended claim C2 at the concrete invocation of its
counterexample. -/
theorem thm_c2_gsr_amended_witness :
    (∃ i : Nat,
        i + (slice "ABCDD".toList 0 (3 + 1)).length < ("AABCD".toList).length ∧
        i < 3 ∧
        slice "AABCD".toList i (slice "ABCDD".toList 0 (3 + 1)).length =
          slice "ABCDD".toList 0 (3 + 1) ∧
        (∀ k : Nat, i < k →
          k + (slice "ABCDD".toList 0 (3 + 1)).length < ("AABCD".toList).length →
          k < 3 →
          slice "AABCD".toList k (slice "ABCDD".toList 0 (3 + 1)).length ≠
            slice "ABCDD".toList 0 (3 + 1)) ∧
        GSR "ABCDD".toList "AABCD".toList 0 3 = (3 : Int) - (i : Int)) ∨
    ((∀ i : Nat,
        i + (slice "ABCDD".toList 0 (3 + 1)).length < ("AABCD".toList).length →
        i < 3 →
        slice "AABCD".toList i (slice "ABCDD".toList 0 (3 + 1)).length ≠
          slice "ABCDD".toList 0 (3 + 1)) ∧
      GSR "ABCDD".toList "AABCD".toList 0 3 = 1) :=
  thm_c2_gsr_amended "ABCDD".toList "AABCD".toList 0 3

/-- Claim C3: at any mismatch invocation with subject character
`x = T[t+p]`, BCR returns `p + 1` when the table cell `(x, p)` is the
sentinel and `p - i` when the cell holds `i`; the returned shift is always
strictly positive. -/
theorem thm_c3_bcr (T P : List Char) (t p : Nat) :
    1 ≤ BCR T P t p ∧
    (bcCell P (nthc T (t + p)) p = -1 → BCR T P t p = (p : Int) + 1) ∧
    (∀ i : Nat, bcCell P (nthc T (t + p)) p = (i : Int) →
      BCR T P t p = (p : Int) - (i : Int)) := by
  refine ⟨BCR_pos T P t p, ?_, ?_⟩
  · intro hs
    unfold BCR
    rw [if_pos hs]
  · intro i hi
    unfold BCR
    rw [hi, if_neg (by omega)]

/-- Witness for claim C3 at two concrete invocations, one per table-cell
case. -/
theorem thm_c3_bcr_witness :
    bcCell "TTTT".toList 'G' 2 = -1 ∧
    BCR "ACGT".toList "TTTT".toList 0 2 = (2 : Int) + 1 ∧
    bcCell "ABAB".toList 'A' 3 = (2 : Int) ∧
    BCR "BBBA".toList "ABAB".toList 0 3 = (3 : Int) - (2 : Int) := by
  refine ⟨by decide, ?_, by decide, ?_⟩
  · exact (thm_c3_bcr "ACGT".toList "TTTT".toList 0 2).2.1 (by decide)
  · exact (thm_c3_bcr "BBBA".toList "ABAB".toList 0 3).2.2 2 (by decide)

/-- Claim C4: on a mismatch at position `p`, if `p < len(P) / 2` (for
integers, `2p < len(P)`) the loop increments `bcr_win_count` and advances
`t` by exactly `s1 = BCR(t, p, P)` without consulting GSR; otherwise it
advances by exactly `max(s1, s2)` with `s2 = GSR(t, p, P)` and increments
`bcr_win_count` exactly when `s1 >= s2`. -/
theorem thm_c4_mismatch_step (T P Q : List Char) (fuel t bcr mc : Nat)
    (pos : List Nat) (p : Nat)
    (hb : (t : Int) ≤ (T.length : Int) - (P.length : Int))
    (hm : cmpLoop T P t = some p) :
    (2 * p < P.length →
      scanLoopF T P Q (fuel + 1) t bcr mc pos =
        scanLoopF T P Q fuel (t + (BCR T Q t p).toNat) (bcr + 1) mc pos ∧
      ((t + (BCR T Q t p).toNat : Nat) : Int) = (t : Int) + BCR T Q t p) ∧
    (P.length ≤ 2 * p →
      scanLoopF T P Q (fuel + 1) t bcr mc pos =
        scanLoopF T P Q fuel (t + (max (BCR T Q t p) (GSR T Q t p)).toNat)
          (if GSR T Q t p ≤ BCR T Q t p then bcr + 1 else bcr) mc pos ∧
      ((t + (max (BCR T Q t p) (GSR T Q t p)).toNat : Nat) : Int) =
        (t : Int) + max (BCR T Q t p) (GSR T Q t p)) := by
  have hstep := scanLoopF_mismatch T P Q fuel t bcr mc pos p hb hm
  constructor
  · intro hp
    refine ⟨by rw [hstep, if_pos hp], ?_⟩
    have h1 := BCR_pos T Q t p
    push_cast
    omega
  · intro hp
    refine ⟨by rw [hstep, if_neg (by omega)], ?_⟩
    have h1 := BCR_pos T Q t p
    have h2 : 1 ≤ max (BCR T Q t p) (GSR T Q t p) := le_trans h1 (le_max_left _ _)
    push_cast
    omega

/-- Witness for claim C4 at the concrete GSR-branch mismatch of subject
`ACGT` against pattern `TTTT`. -/
theorem thm_c4_mismatch_step_witness :
    cmpLoop "ACGT".toList "TTTT".toList 0 = some 2 ∧
    scanLoopF "ACGT".toList "TTTT".toList "TTTT".toList 4 0 0 0 [] =
      scanLoopF "ACGT".toList "TTTT".toList "TTTT".toList 3
        (0 + (max (BCR "ACGT".toList "TTTT".toList 0 2)
          (GSR "ACGT".toList "TTTT".toList 0 2)).toNat)
        (if GSR "ACGT".toList "TTTT".toList 0 2 ≤ BCR "ACGT".toList "TTTT".toList 0 2
          then 0 + 1 else 0) 0 [] :=
  ⟨by decide,
    ((thm_c4_mismatch_step "ACGT".toList "TTTT".toList "TTTT".toList 3 0 0 0 [] 2
      (by decide) (by decide)).2 (by decide)).1⟩

/-- Claim C5: for every pattern position `j < len(P)` and any character,
the preprocessed table cell equals the greatest index `i < j` carrying
that character, with `-1` as the none sentinel. -/
theorem thm_c5_table (P : List Char) (c : Char) (j : Nat) (hj : j < P.length) :
    bcCell P c j = greatestBelow P c j := by
  rcases bcCell_spec P c j with ⟨h1, h2⟩ | ⟨i, h1, h2, h3, h4, h5⟩
  · rcases filterRange_getLast_spec (fun i => nthc P i = c) j with
      ⟨g1, g2⟩ | ⟨i2, g1, g2, g3, g4⟩
    · have g1x : ((List.range j).filter (fun i => decide (nthc P i = c))).getLast? =
          none := g1
      rw [h1]
      unfold greatestBelow
      rw [g1x]
    · exact absurd g3 (h2 i2 (by omega) g2)
  · rcases filterRange_getLast_spec (fun i => nthc P i = c) j with
      ⟨g1, g2⟩ | ⟨i2, g1, g2, g3, g4⟩
    · exact absurd h4 (g2 i h3)
    · have g1x : ((List.range j).filter (fun i => decide (nthc P i = c))).getLast? =
          some i2 := g1
      have hii : i = i2 := by
        by_contra hne
        rcases Nat.lt_or_ge i i2 with hlt | hge
        · exact h5 i2 hlt (by omega) g2 g3
        · exact g4 i (by omega) h3 h4
      rw [h1, hii]
      unfold greatestBelow
      rw [g1x]

/-- Witness for claim C5 on pattern `ABAB`, character `A`, position 3. -/
theorem thm_c5_table_witness :
    3 < ("ABAB".toList).length ∧
    bcCell "ABAB".toList 'A' 3 = greatestBelow "ABAB".toList 'A' 3 :=
  ⟨by decide, thm_c5_table "ABAB".toList 'A' 3 (by decide)⟩

/-- Claim C6: after a full match at offset `t` the scan appends `t` to
`positions` only while fewer than ten are recorded, increments
`match_count`, and advances `t` by exactly one (no shift rule), so
overlapping matches are all counted; concretely, subject `AAAAAA` with
pattern `AA` yields five matches at offsets 0 through 4. -/
theorem thm_c6_match_step :
    (∀ (T P Q : List Char) (fuel t bcr mc : Nat) (pos : List Nat),
        (t : Int) ≤ (T.length : Int) - (P.length : Int) →
        cmpLoop T P t = none →
        pos.length = min mc 10 →
        scanLoopF T P Q (fuel + 1) t bcr mc pos =
          scanLoopF T P Q fuel (t + 1) bcr (mc + 1)
            (if pos.length < 10 then pos ++ [t] else pos)) ∧
    boyerMoore "AAAAAA".toList ["AA".toList] = [(0, 5, [0, 1, 2, 3, 4])] := by
  constructor
  · intro T P Q fuel t bcr mc pos hb hm hpos
    rw [scanLoopF_match T P Q fuel t bcr mc pos hb hm]
    congr 1
    rw [hpos]
    exact if_congr (by omega) rfl rfl
  · decide

/-- Witness for claim C6 at the concrete full match of `AA` on `AA`. -/
theorem thm_c6_match_step_witness :
    cmpLoop "AA".toList "AA".toList 0 = none ∧
    scanLoopF "AA".toList "AA".toList "AA".toList 3 0 0 0 [] =
      scanLoopF "AA".toList "AA".toList "AA".toList 2 1 0 1
        (if ([] : List Nat).length < 10 then ([] : List Nat) ++ [0] else []) :=
  ⟨by decide, (thm_c6_match_step).1 "AA".toList "AA".toList "AA".toList 2 0 0 0 []
    (by decide) (by decide) (by decide)⟩

/-- Claim C7: a pattern strictly longer than the subject (including any
non-empty pattern against an empty subject) makes the scan loop exit
immediately for any fuel, yielding the valid zero-match report
`(0, 0, [])` rather than an error. -/
theorem thm_c7_long_pattern (T P Q : List Char) (h : T.length < P.length) :
    (∀ fuel : Nat, scanLoopF T P Q fuel 0 0 0 [] = some (0, 0, [])) ∧
    scanPattern T P Q = (0, 0, []) := by
  have hloop : ∀ fuel : Nat, scanLoopF T P Q fuel 0 0 0 [] = some (0, 0, []) :=
    fun fuel => scanLoopF_stop T P Q fuel 0 0 0 [] (by push_cast; omega)
  exact ⟨hloop, by unfold scanPattern; rw [hloop]; rfl⟩

/-- Witness for claim C7: the empty subject against pattern `A`. -/
theorem thm_c7_long_pattern_witness :
    ("".toList).length < ("A".toList).length ∧
    scanPattern "".toList "A".toList "A".toList = (0, 0, []) :=
  ⟨by decide, (thm_c7_long_pattern "".toList "A".toList "A".toList (by decide)).2⟩

/-- Claim C8, counterexample: on subject `ACGT` and pattern `TTTT` the
first alignment's comparison loop mismatches at `p = 2`, not at `p = 3`
(the last characters `T` agree, so the first comparison matches). -/
theorem thm_c8_counterexample :
    cmpLoop "ACGT".toList "TTTT".toList 0 = some 2 ∧
    cmpLoop "ACGT".toList "TTTT".toList 0 ≠ some 3 := by
  refine ⟨by decide, by decide⟩

/-- Claim C8, amended: subject `ACGT` with pattern `TTTT` yields
`match_count = 0`, `positions = []` and `bcr_win_count = 1 >= 1`, the
first comparison (pattern position 3) matching and the scan's first
mismatch occurring at `p = 2`. -/
theorem thm_c8_scenario :
    boyerMoore "ACGT".toList ["TTTT".toList] = [(1, 0, [])] ∧
    nthc "ACGT".toList 3 = nthc "TTTT".toList 3 ∧
    cmpLoop "ACGT".toList "TTTT".toList 0 = some 2 := by
  refine ⟨by decide, by decide, by decide⟩

/-- Claim C9: the engine yields one report per input pattern in input
order, and two entries holding the same pattern text receive identical
reports, even though the table lookup is keyed by pattern string content
(the lookup resolves any listed text to that same text). -/
theorem thm_c9_duplicates (T : List Char) (pats : List (List Char)) (i j : Nat)
    (P : List Char) (hi : pats.get? i = some P) (hj : pats.get? j = some P) :
    (boyerMoore T pats).length = pats.length ∧
    (boyerMoore T pats).get? i = (boyerMoore T pats).get? j ∧
    lookupPat pats P = P := by
  refine ⟨List.length_map _ _, ?_, lookupPat_eq pats P (List.get?_mem hi)⟩
  unfold boyerMoore
  rw [List.get?_map, List.get?_map, hi, hj]

/-- Witness for claim C9 on a duplicated pattern list. -/
theorem thm_c9_duplicates_witness :
    (["AB".toList, "AB".toList].get? 0 = some "AB".toList) ∧
    (["AB".toList, "AB".toList].get? 1 = some "AB".toList) ∧
    (boyerMoore "ABAB".toList ["AB".toList, "AB".toList]).get? 0 =
      (boyerMoore "ABAB".toList ["AB".toList, "AB".toList]).get? 1 :=
  ⟨by decide, by decide,
    (thm_c9_duplicates "ABAB".toList ["AB".toList, "AB".toList] 0 1 "AB".toList
      (by decide) (by decide)).2.1⟩

/-- Claim C10: BCR and GSR always return shifts of at least one, every
loop iteration strictly advances the cursor, and hence the scan finishes
within fuel exceeding the remaining cursor range: `boyer_moore` terminates
on every input. -/
theorem thm_c10_termination :
    (∀ (T P : List Char) (t p : Nat), 1 ≤ BCR T P t p ∧ 1 ≤ GSR T P t p) ∧
    (∀ (T P Q : List Char) (fuel t bcr mc : Nat) (pos : List Nat),
        (T.length : Int) - (P.length : Int) - (t : Int) < (fuel : Int) →
        (scanLoopF T P Q fuel t bcr mc pos).isSome = true) ∧
    (∀ (T P Q : List Char), (scanLoopF T P Q (T.length + 1) 0 0 0 []).isSome = true) :=
  ⟨fun T P t p => ⟨BCR_pos T P t p, GSR_pos T P t p⟩,
    fun T P Q fuel t bcr mc pos h => scanLoopF_total T P Q fuel t bcr mc pos h,
    fun T P Q => scanLoopF_total T P Q (T.length + 1) 0 0 0 [] (by push_cast; omega)⟩

/-- Witness for claim C10 on a concrete subject and pattern. -/
theorem thm_c10_termination_witness :
    (("ACGT".toList).length : Int) - (("TT".toList).length : Int) - ((0 : Nat) : Int) <
      ((5 : Nat) : Int) ∧
    (scanLoopF "ACGT".toList "TT".toList "TT".toList 5 0 0 0 []).isSome = true :=
  ⟨by decide, (thm_c10_termination).2.1 "ACGT".toList "TT".toList "TT".toList 5 0 0 0 []
    (by decide)⟩

end BoyerMooreModel
